import Mathlib

/-!
Verification of the vectorized numeric kernels of `cfavml` against its
natural-language specification.

The Rust sources are shallowly embedded as Lean functions:

* A SIMD register bank of eight 8-lane registers (the AVX2 `__m256` bank for
  `f32` and the AVX-512 `__m512d` bank for `f64` both hold 8 × 8 scalar slots)
  is modelled as a function `Nat → α` from the flat slot index `s` (with
  `s = 8 * register + lane`, the layout the source itself exposes through
  `mem::transmute::<[__m256; 8], [f32; 64]>` and
  `mem::transmute::<[__m512d; 8], [f64; 64]>`) to the scalar held in that slot.
* NaN-free `f32` values (the precondition of the max claims) form a linear
  order whose least element is `f32::NEG_INFINITY`, with `-0.0` and `+0.0`
  identified exactly as the `f32` comparison operators identify them; both
  `_mm256_max_ps` and Rust's `f32::max` agree with the lattice `max` on this
  order.  The max kernels are therefore embedded over an arbitrary
  `[LinearOrder α] [OrderBot α]`.
* `f64` addition is embedded as an arbitrary binary operation `add` with an
  arbitrary zero value `z`: the sum kernels never rely on any algebraic law of
  IEEE addition, so every theorem proved for an uninterpreted `add` holds for
  the rounded IEEE operation.
* Out-of-bounds loads (undefined behaviour in the source, excluded by each
  kernel's documented precondition) are totalized with `List.getD` defaults.
* An assertion failure (`assert_eq!` in the safe export layer) is modelled as
  a `true` "panicked" flag paired with the untouched output buffer; a
  `matrix[0]` panic on an empty matrix is modelled as `Option.none`.
-/

/-! ### The 8×8 slot bank and the dense 64-element block loop of the
`f32` AVX2 horizontal max kernels (`danger/f32_avx2_max.rs`). -/

variable {α : Type} [LinearOrder α] [OrderBot α]

/-- One iteration of the dense 64-element block loop of
`f32_xconst_avx2_nofma_max_horizontal` / `f32_xany_avx2_nofma_max_horizontal`:
the eight registers load `arr[i + 8k .. i + 8k + 8)` (the offsets produced by
`offsets_avx2_ps::<CHUNK_0>` and `offsets_avx2_ps::<CHUNK_1>`) and each
accumulator slot takes `_mm256_max_ps` with the freshly loaded lane, so flat
slot `s` becomes `max acc[s] arr[i + s]`. -/
def maxBlockStep (arr : List α) (i : Nat) (acc : Nat → α) : Nat → α :=
  fun s => max (acc s) (arr.getD (i + s) ⊥)

/-- The dense block loop: `n` iterations starting at element index `i`,
advancing by 64 elements per iteration (`while i < … { …; i += 64 }`). -/
def maxBlocksLoop (arr : List α) : Nat → Nat → (Nat → α) → Nat → α
  | _, 0, acc => acc
  | i, n + 1, acc => maxBlocksLoop arr (i + 64) n (maxBlockStep arr i acc)

/-- One iteration of the single-register tail loop of
`f32_xany_avx2_nofma_max_horizontal`: only register 0 (slots `0..8`) takes
`_mm256_max_ps` with the 8 elements loaded from `arr[i .. i+8)`. -/
def regTailStep (arr : List α) (i : Nat) (acc : Nat → α) : Nat → α :=
  fun s => if s < 8 then max (acc s) (arr.getD (i + s) ⊥) else acc s

/-- The single-register tail loop: `n` iterations starting at index `i`,
advancing by 8 elements per iteration. -/
def regTailLoop (arr : List α) : Nat → Nat → (Nat → α) → Nat → α
  | _, 0, acc => acc
  | i, n + 1, acc => regTailLoop arr (i + 8) n (regTailStep arr i acc)

/-- The scalar tail loop `for n in i..len { max = max.max(arr[n]) }`, run for
`n` elements starting at index `i` with running value `m`. -/
def scalarTailLoop (arr : List α) : Nat → Nat → α → α
  | _, 0, m => m
  | i, n + 1, m => scalarTailLoop arr (i + 1) n (max m (arr.getD i ⊥))

/-- Lane `j` of the register produced by the pairwise accumulator merge
`acc1 = max(acc1, acc2); acc3 = max(acc3, acc4); acc5 = max(acc5, acc6);
acc7 = max(acc7, acc8); acc1 = max(acc1, acc3); acc5 = max(acc5, acc7);
acc1 = max(acc1, acc5)` (register `k` holds flat slots `8k + j`). -/
def mergedLane (acc : Nat → α) (j : Nat) : α :=
  max (max (max (acc j) (acc (8 + j))) (max (acc (16 + j)) (acc (24 + j))))
      (max (max (acc (32 + j)) (acc (40 + j))) (max (acc (48 + j)) (acc (56 + j))))

/-- The final scalar pass `for x in unpacked { max = max.max(x) }` over the 8
lanes of the merged register, starting from the running value `m0`. -/
def foldLanes (acc : Nat → α) (m0 : α) : α :=
  max (max (max (max (max (max (max (max m0 (mergedLane acc 0)) (mergedLane acc 1)) (mergedLane acc 2)) (mergedLane acc 3)) (mergedLane acc 4)) (mergedLane acc 5)) (mergedLane acc 6)) (mergedLane acc 7)

/-- `f32_xconst_avx2_nofma_max_horizontal::<DIMS>(arr)`: all eight
accumulators start at `f32::NEG_INFINITY` (`⊥`), the dense loop runs
`DIMS / 64` times (its exact iteration count when `DIMS` is a multiple of 64,
the kernel's documented precondition), and the merged register is folded into
a scalar starting from `NEG_INFINITY`. -/
def f32_xconst_avx2_nofma_max_horizontal (DIMS : Nat) (arr : List α) : α :=
  foldLanes (maxBlocksLoop arr 0 (DIMS / 64) (fun _ => ⊥)) ⊥

/-- `f32_xany_avx2_nofma_max_horizontal(arr)`: dense loop over
`(len - len % 64) / 64` blocks; when `len % 64 ≠ 0` an 8-wide register tail
loop runs until `len - (len % 64) % 8` and a scalar loop folds the final
`len % 64 % 8` elements into the running scalar `max` (initialized to
`NEG_INFINITY` at the top of the function); the merged register is folded
into that running scalar. -/
def f32_xany_avx2_nofma_max_horizontal (arr : List α) : α :=
  let len := arr.length
  let offset_from := len % 64
  let acc := maxBlocksLoop arr 0 ((len - offset_from) / 64) (fun _ => (⊥ : α))
  if offset_from = 0 then
    foldLanes acc ⊥
  else
    let tail := offset_from % 8
    let acc2 := regTailLoop arr (len - offset_from) ((offset_from - tail) / 8) acc
    foldLanes acc2 (scalarTailLoop arr (len - tail) tail ⊥)

/-- Modelled from the spec: one Phase-A iteration of the fallback horizontal
max — the block of one-lane `Fallback` registers is 8 elements wide and each
of the 8 scalar accumulators takes the scalar `cmp_max`
(`Fallback::max` of `danger/impl_fallback.rs`) with `arr[i + k]`. -/
def fbBlockStep (arr : List α) (i : Nat) (acc : Nat → α) : Nat → α :=
  fun s => max (acc s) (arr.getD (i + s) ⊥)

/-- Modelled from the spec: the Phase-A loop of the fallback horizontal max —
`n` 8-element blocks starting at index `i`, each accumulator `k` taking the
scalar `cmp_max` with `arr[i + k]`. -/
def fbBlocksLoop (arr : List α) : Nat → Nat → (Nat → α) → Nat → α
  | _, 0, acc => acc
  | i, n + 1, acc => fbBlocksLoop arr (i + 8) n (fbBlockStep arr i acc)

/-- Modelled from the spec: the log-depth pairwise reduction of the eight
fallback accumulators, with `a0` standing for accumulator 0 after the Phase-B
fold. -/
def fbReduce (acc : Nat → α) (a0 : α) : α :=
  max (max (max a0 (acc 1)) (max (acc 2) (acc 3)))
      (max (max (acc 4) (acc 5)) (max (acc 6) (acc 7)))

/-- Modelled from the spec: the scalar-fallback horizontal max entry point
(`f32_xany_fallback_nofma_max_horizontal`) is the generic reduction kernel of
§4.3 instantiated with the `Fallback` register (`Register = T`, one lane, so
the dense block is 8 elements): Phase A keeps 8 scalar accumulators
initialized to `-∞` over `len / 8` blocks, Phase B folds the remaining
`len % 8` elements into accumulator 0 one at a time (Phase C is empty for a
one-lane register), and the 8 accumulators are pairwise reduced.  The
`Fallback` register operations themselves (`Fallback::max` = scalar
`cmp_max`, `Fallback::max_to_value` = identity) are taken from
`danger/impl_fallback.rs`. -/
def f32_xany_fallback_nofma_max_horizontal (arr : List α) : α :=
  let len := arr.length
  let accA := fbBlocksLoop arr 0 (len / 8) (fun _ => (⊥ : α))
  let a0 := scalarTailLoop arr (8 * (len / 8)) (len % 8) (accA 0)
  fbReduce accA a0

/-! ### The scalar reference and the max-fold bookkeeping. -/

/-- The straightforward element-by-element reference loop of the spec (and of
the kernel's own tests): `arr.iter().fold(f32::NEG_INFINITY, |acc, v| acc.max(*v))`. -/
def scalarFoldMax (arr : List α) : α :=
  arr.foldl max ⊥

/-- Maximum of the `n` elements `arr[i .. i + n)` (with `⊥` for out-of-range
reads), the abstract value tracked through every loop of the max kernels. -/
def supRange (arr : List α) (i : Nat) : Nat → α
  | 0 => ⊥
  | n + 1 => max (supRange arr i n) (arr.getD (i + n) ⊥)

/-! ### The `f64` AVX-512 horizontal sum kernels (`danger/f64_avx512_sum.rs`).

The scalar `f64` addition is kept as an uninterpreted binary operation `add`
with zero value `z` (the IEEE value `0.0` produced by `_mm512_setzero_pd`):
none of the theorems below depend on any algebraic law of the rounded IEEE
operation, so they hold for it in particular.  The slot bank is the same
flat `Nat → α` layout as for the max kernels (8 lanes per `__m512d`
register, slot `s = 8 * register + lane`). -/

/-- `sum_x64_block`: the eight registers load `x[i + 8k .. i + 8k + 8)`
(`offsets_avx512_pd::<CHUNK_0>` / `CHUNK_1`) and each accumulator slot takes
`_mm512_add_pd`, so flat slot `s` becomes `add acc[s] x[i + s]`. -/
def sum_x64_block {β : Type} (add : β → β → β) (z : β) (x : List β) (i : Nat)
    (acc : Nat → β) : Nat → β :=
  fun s => add (acc s) (x.getD (i + s) z)

/-- The dense block loop of the sum kernels: `n` iterations of
`sum_x64_block` starting at element index `i`, advancing by 64. -/
def sumBlocksLoop {β : Type} (add : β → β → β) (z : β) (x : List β) :
    Nat → Nat → (Nat → β) → Nat → β
  | _, 0, acc => acc
  | i, n + 1, acc => sumBlocksLoop add z x (i + 64) n (sum_x64_block add z x i acc)

/-- Modelled from the spec: `load_one_variable_size_avx512_pd(ptr, n)` — the
masked AVX-512 load of `min(n, 8)` elements starting at index `i`, the masked
lanes being zero-filled (§4.3 Phase C: "a masked single-register load/store
on backends that provide masking (AVX-512)").  The helper itself is not among
the provided sources; only its call sites are. -/
def load_one_variable_size_avx512_pd {β : Type} (z : β) (x : List β) (i n : Nat) :
    Nat → β :=
  fun s => if s < n then x.getD (i + s) z else z

/-- One iteration of the sub-64 tail loop of
`f64_xany_avx512_nofma_sum_horizontal`: register 0 (slots `0..8`) takes
`_mm512_add_pd` with the masked load of the `n = len - i` remaining
elements. -/
def sumTailStep {β : Type} (add : β → β → β) (z : β) (x : List β) (i n : Nat)
    (acc : Nat → β) : Nat → β :=
  fun s => if s < 8 then add (acc s) (load_one_variable_size_avx512_pd z x i n s) else acc s

/-- The sub-64 tail loop `while i < len { n = len - i; …; i += 8 }`, run for
`it` iterations. -/
def sumTailLoop {β : Type} (add : β → β → β) (z : β) (x : List β) :
    Nat → Nat → (Nat → β) → Nat → β
  | _, 0, acc => acc
  | i, it + 1, acc =>
      sumTailLoop add z x (i + 8) it (sumTailStep add z x i (x.length - i) acc)

/-- Modelled from the spec: `sum_avx512_x8_pd(acc1, …, acc8)` — the final
horizontal reduction of the eight registers, a log-depth pairwise merge of
the registers followed by a left-to-right lanewise horizontal add of the
merged register (§4.2 `reduce_dense_to_register`, §4.3 "the 8 registers are
pairwise-reduced, then register-reduced").  The helper itself is not among
the provided sources; only its call sites are. -/
def sum_avx512_x8_pd {β : Type} (add : β → β → β) (acc : Nat → β) : β :=
  let lane : Nat → β := fun j =>
    add (add (add (acc j) (acc (8 + j))) (add (acc (16 + j)) (acc (24 + j))))
        (add (add (acc (32 + j)) (acc (40 + j))) (add (acc (48 + j)) (acc (56 + j))))
  add (add (add (add (add (add (add (lane 0) (lane 1)) (lane 2)) (lane 3)) (lane 4)) (lane 5)) (lane 6)) (lane 7)

/-- `f64_xconst_avx512_nofma_sum_horizontal::<DIMS>(x)`: the eight
accumulators start at `_mm512_setzero_pd`, the dense loop runs `DIMS / 64`
times (its exact iteration count when `DIMS` is a multiple of 64, the
kernel's documented precondition), and the result is `sum_avx512_x8_pd`. -/
def f64_xconst_avx512_nofma_sum_horizontal {β : Type} (add : β → β → β) (z : β)
    (DIMS : Nat) (x : List β) : β :=
  sum_avx512_x8_pd add (sumBlocksLoop add z x 0 (DIMS / 64) (fun _ => z))

/-- `f64_xany_avx512_nofma_sum_horizontal(x)`: dense loop over
`(len - len % 64) / 64` blocks, then the masked 8-wide tail loop runs
`⌈(len % 64) / 8⌉` times, and the result is `sum_avx512_x8_pd`. -/
def f64_xany_avx512_nofma_sum_horizontal {β : Type} (add : β → β → β) (z : β)
    (x : List β) : β :=
  let len := x.length
  let offset_from := len % 64
  let acc := sumBlocksLoop add z x 0 ((len - offset_from) / 64) (fun _ => z)
  sum_avx512_x8_pd add (sumTailLoop add z x (len - offset_from) ((offset_from + 7) / 8) acc)

/-! ### The vertical (matrix) reduction kernels
(`f32_xconst/xany_avx2_nofma_max_vertical` of `danger/f32_avx2_max.rs` and
`f64_xconst/xany_avx512_nofma_sum_vertical` of `danger/f64_avx512_sum.rs`). -/

/-- The block write `ptr::copy_nonoverlapping(result.as_ptr(),
results_ptr.add(i), result.len())` (and, with `c = min(n, 8)`, the masked
write `copy_masked_avx512_pd_register_to`): stores accumulator slots
`0 .. c` to `res[i .. i + c)`. -/
def writeSlots {β : Type} (res : List β) (i : Nat) (acc : Nat → β) : Nat → List β
  | 0 => res
  | c + 1 => (writeSlots res i acc c).set (i + c) (acc c)

/-- The outer position loop of the vertical kernels: `nb` iterations starting
at position `i`, each computing a fresh 64-slot accumulator bank
`blockAcc i` (the inner loop over the matrix rows) and storing it to
`res[i .. i + 64)`, then advancing by 64. -/
def vertBlocksLoop {β : Type} (blockAcc : Nat → Nat → β) : Nat → Nat → List β → List β
  | _, 0, res => res
  | i, nb + 1, res => vertBlocksLoop blockAcc (i + 64) nb (writeSlots res i (blockAcc i) 64)

/-- The masked tail loop of `f64_xany_avx512_nofma_sum_vertical`
(`while i < len { let n = len - i; …; i += 8 }`): each of the `it`
iterations computes the 8-lane accumulator `tailAcc i n` over the rows and
masked-stores its first `min(n, 8)` lanes to `res[i .. )`. -/
def vertTailLoop {β : Type} (tailAcc : Nat → Nat → Nat → β) (len : Nat) :
    Nat → Nat → List β → List β
  | _, 0, res => res
  | i, it + 1, res =>
      vertTailLoop tailAcc len (i + 8) it
        (writeSlots res i (tailAcc i (len - i)) (min (len - i) 8))

/-- The unmasked 8-wide tail loop of `f32_xany_avx2_nofma_max_vertical`
(AVX2 has no masked store; `copy_avx2_ps_register_to` writes all 8 lanes). -/
def vertTailLoop8 {β : Type} (tailAcc : Nat → Nat → β) : Nat → Nat → List β → List β
  | _, 0, res => res
  | i, it + 1, res => vertTailLoop8 tailAcc (i + 8) it (writeSlots res i (tailAcc i) 8)

/-- The inner row loop of the vertical sum kernels
(`for m in 0..matrix.len() { …; sum_x64_block(arr.add(i), …) }`). -/
def sumVertRowsLoop {β : Type} (add : β → β → β) (z : β) (i : Nat) :
    List (List β) → (Nat → β) → Nat → β
  | [], acc => acc
  | r :: rs, acc => sumVertRowsLoop add z i rs (sum_x64_block add z r i acc)

/-- The inner row loop of the masked tail of
`f64_xany_avx512_nofma_sum_vertical`: each row contributes
`_mm512_add_pd(acc, load_one_variable_size_avx512_pd(arr.add(i), n))` to
register 0 of the bank. -/
def sumVertTailRows {β : Type} (add : β → β → β) (z : β) (i n : Nat) :
    List (List β) → (Nat → β) → Nat → β
  | [], acc => acc
  | r :: rs, acc => sumVertTailRows add z i n rs (sumTailStep add z r i n acc)

/-- The inner row loop of the dense blocks of the vertical max kernels
(each row maxes the 64-slot bank with its `arr[i .. i + 64)` segment). -/
def maxVertRowsLoop (i : Nat) : List (List α) → (Nat → α) → Nat → α
  | [], acc => acc
  | r :: rs, acc => maxVertRowsLoop i rs (maxBlockStep r i acc)

/-- The inner row loop of the 8-wide tail of
`f32_xany_avx2_nofma_max_vertical`: each row maxes register 0 of the bank
with its `arr[i .. i + 8)` segment. -/
def maxVertTailRows (i : Nat) : List (List α) → (Nat → α) → Nat → α
  | [], acc => acc
  | r :: rs, acc => maxVertTailRows i rs (regTailStep r i acc)

/-- The scalar column fold of the final tail of
`f32_xany_avx2_nofma_max_vertical`
(`let mut max = NEG_INFINITY; for m in 0..matrix.len() { max = max.max(arr[n]) }`). -/
def maxVertScalarCol (matrix : List (List α)) (n : Nat) : α :=
  matrix.foldl (fun m r => max m (r.getD n ⊥)) ⊥

/-- The scalar tail loop of `f32_xany_avx2_nofma_max_vertical`
(`for n in i..len`), run for `c` positions starting at position `n`. -/
def maxVertScalarTailLoop (matrix : List (List α)) : Nat → Nat → List α → List α
  | _, 0, res => res
  | n, c + 1, res => maxVertScalarTailLoop matrix (n + 1) c (res.set n (maxVertScalarCol matrix n))

/-- `f32_xconst_avx2_nofma_max_vertical::<DIMS>(matrix)`: allocates
`vec![0.0; DIMS]` (the literal `0.0` is the parameter `z0`), then per
64-element block initializes the bank to `NEG_INFINITY`, maxes every row in,
and stores the bank. -/
def f32_xconst_avx2_nofma_max_vertical (DIMS : Nat) (z0 : α) (matrix : List (List α)) :
    List α :=
  vertBlocksLoop (fun i => maxVertRowsLoop i matrix (fun _ => ⊥)) 0 (DIMS / 64)
    (List.replicate DIMS z0)

/-- `f32_xany_avx2_nofma_max_vertical(matrix)`: evaluates `matrix[0].len()`
first — on an empty matrix the indexing panics, modelled as `none` — then
runs the dense blocks, the 8-wide register tail, and the scalar tail. -/
def f32_xany_avx2_nofma_max_vertical (z0 : α) (matrix : List (List α)) :
    Option (List α) :=
  match matrix with
  | [] => none
  | r0 :: _ =>
      let len := r0.length
      let offset_from := len % 64
      let res := vertBlocksLoop (fun i => maxVertRowsLoop i matrix (fun _ => ⊥)) 0
        ((len - offset_from) / 64) (List.replicate len z0)
      if offset_from = 0 then some res
      else
        let tail := offset_from % 8
        let res2 := vertTailLoop8 (fun i => maxVertTailRows i matrix (fun _ => ⊥))
          (len - offset_from) ((offset_from - tail) / 8) res
        some (maxVertScalarTailLoop matrix (len - tail) tail res2)

/-- `f64_xconst_avx512_nofma_sum_vertical::<DIMS>(matrix)`: allocates
`vec![0.0; DIMS]`, then per 64-element block initializes the bank to
`_mm512_setzero_pd`, runs `sum_x64_block` for every row, and stores the
bank. -/
def f64_xconst_avx512_nofma_sum_vertical {β : Type} (add : β → β → β) (z : β)
    (DIMS : Nat) (matrix : List (List β)) : List β :=
  vertBlocksLoop (fun i => sumVertRowsLoop add z i matrix (fun _ => z)) 0 (DIMS / 64)
    (List.replicate DIMS z)

/-- `f64_xany_avx512_nofma_sum_vertical(matrix)`: evaluates
`matrix[0].len()` first — on an empty matrix the indexing panics, modelled
as `none` — then runs the dense blocks and the masked 8-wide tail. -/
def f64_xany_avx512_nofma_sum_vertical {β : Type} (add : β → β → β) (z : β)
    (matrix : List (List β)) : Option (List β) :=
  match matrix with
  | [] => none
  | r0 :: _ =>
      let len := r0.length
      let offset_from := len % 64
      let res := vertBlocksLoop (fun i => sumVertRowsLoop add z i matrix (fun _ => z)) 0
        ((len - offset_from) / 64) (List.replicate len z)
      some (vertTailLoop (fun i n => sumVertTailRows add z i n matrix (fun _ => z)) len
        (len - offset_from) ((offset_from + 7) / 8) res)

/-- The per-position reference value of the vertical sum: the fold of the
scalar addition over the rows, in row order, starting from zero — the
reference loop of the kernel's own tests
(`for arr in matrix.iter() { sum += arr[i] }`). -/
def colFold {β : Type} (add : β → β → β) (z : β) (matrix : List (List β)) (j : Nat) : β :=
  matrix.foldl (fun a r => add a (r.getD j z)) z

/-! ### The safe export layer (`arithmetic_ops.rs`, `min_max_sum_ops.rs`).

Every exported entry point produced by the `export_safe_*` macros first runs
its `assert_eq!` shape checks and only then dispatches into a backend kernel.
A failed assertion halts the call before any write; this is modelled as the
pair of the untouched output buffer and a `true` "panicked" flag. -/

/-- The two-input any-dim export wrapper
(`export_safe_arithmetic_vector_x_vector_op` and `export_safe_vertical_op`,
`any_name` form): `assert_eq!(a.len(), b.len())`, then
`assert_eq!(a.len(), result.len())`, then dispatch. -/
def exportSafeBinaryOp {β : Type} (kern : List β → List β → List β)
    (a b result : List β) : List β × Bool :=
  if a.length = b.length then
    if a.length = result.length then (kern a b, false)
    else (result, true)
  else (result, true)

/-- The two-input const-dim export wrapper (`const_name` form): the same two
`assert_eq!` checks — and no comparison of any length against `DIMS` — then
dispatch into the `DIMS`-parameterized kernel. -/
def exportSafeBinaryOpConst {β : Type} (kern : Nat → List β → List β → List β)
    (DIMS : Nat) (a b result : List β) : List β × Bool :=
  if a.length = b.length then
    if a.length = result.length then (kern DIMS a b, false)
    else (result, true)
  else (result, true)

/-- The const-dim horizontal reduction export wrapper
(`export_safe_horizontal_op`, `const_name` form): the body contains no
assertion at all — it dispatches straight into the backend kernel.  (The
only `arr.len() == DIMS` check anywhere is a `debug_assert_eq!` inside the
unsafe kernels themselves, compiled out of release builds.) -/
def exportSafeHorizontalOpConst {β γ : Type} (kern : Nat → List β → γ)
    (DIMS : Nat) (a : List β) : γ × Bool :=
  (kern DIMS a, false)

/-- The vector × value any-dim export wrapper
(`export_safe_arithmetic_vector_x_value_op`, `any_name` form):
`assert_eq!(a.len(), result.len())`, then dispatch. -/
def exportSafeVectorXValueOp {β : Type} (kern : β → List β → List β)
    (value : β) (a result : List β) : List β × Bool :=
  if a.length = result.length then (kern value a, false) else (result, true)

/-- The vector × value const-dim export wrapper (`const_name` form): the
single `assert_eq!(a.len(), result.len())` check — the declared `DIMS` is
never compared against any length — then dispatch. -/
def exportSafeVectorXValueOpConst {β : Type} (kern : Nat → β → List β → List β)
    (DIMS : Nat) (value : β) (a result : List β) : List β × Bool :=
  if a.length = result.length then (kern DIMS value a, false) else (result, true)

/-- Modelled from the spec: the generic vector × value kernel
(`op_vector_x_value`, not among the provided sources): broadcast `value`
once, then apply the element-wise op through the vector writing the result
(§4.3); position `i` receives `op a[i] value`. -/
def op_vector_x_value {β : Type} (op : β → β → β) (value : β) (a : List β) : List β :=
  a.map (fun x => op x value)

/-- Modelled from the spec: the generic two-vector vertical max/min kernel
(`op_max` / `op_min`, not among the provided sources): element-wise lanewise
max through the backend register op (§4.3), so position `i` receives
`opmax a[i] b[i]`.  The register ops it is instantiated with are in the
sources: `vmaxq_f32`/`vminq_f32` (`impl_neon.rs`), lane-by-lane
`core::cmp::max` for `i64`/`u64` (`impl_neon.rs`), and the scalar
`cmp_max`/`cmp_min` (`impl_fallback.rs`). -/
def op_max_vertical {β : Type} (opmax : β → β → β) (a b : List β) : List β :=
  List.zipWith opmax a b

/-! ### A fragment of IEEE-754 floating point with NaN.

Sufficient to settle the claims that quantify over floating-point inputs
including NaN: a value is NaN or a finite rational (signed zeros and
infinities play no role in the claims below, and finite arithmetic is only
used where IEEE arithmetic is exact). -/

/-- Modelled from the spec: an `f32`/`f64` value of the NaN-or-finite
fragment; finite values are represented by integers (the claims below only
ever need small integer-valued floats, on which the IEEE operations used are
exact). -/
inductive Fp where
  | nan : Fp
  | fin : Int → Fp
deriving DecidableEq

/-- Modelled from the spec: the IEEE `==` comparison (Rust's `PartialEq` on
floats, the comparison of the crate's own `assert_eq!` tests): NaN compares
unequal to everything, itself included; finite values compare by value. -/
def Fp.ieeeEq : Fp → Fp → Bool
  | .nan, _ => false
  | _, .nan => false
  | .fin a, .fin b => a == b

/-- Modelled from the spec: the AArch64 `FMAX` instruction behind
`vmaxq_f32` / `vmaxq_f64` (`Neon::max` of `impl_neon.rs`): the result is NaN
when either operand is NaN, otherwise the larger operand. -/
def Fp.fmax : Fp → Fp → Fp
  | .nan, _ => .nan
  | _, .nan => .nan
  | .fin a, .fin b => .fin (max a b)

/-- Modelled from the spec: IEEE floating-point addition on the fragment —
NaN propagates; finite addition is exact here, which matches IEEE exactly in
the only use below (adding the value `0`, for which IEEE addition never
rounds). -/
def Fp.add : Fp → Fp → Fp
  | .nan, _ => .nan
  | _, .nan => .nan
  | .fin a, .fin b => .fin (a + b)

/-- Modelled from the spec: IEEE floating-point multiplication on the
fragment — NaN propagates; finite multiplication is exact here, which
matches IEEE exactly in the only use below (multiplying by the value `1`,
for which IEEE multiplication never rounds). -/
def Fp.mul : Fp → Fp → Fp
  | .nan, _ => .nan
  | _, .nan => .nan
  | .fin a, .fin b => .fin (a * b)

/-- Modelled from the spec: two's-complement wrap-around of an integer into
the `i32` range (§3: "Integer overflow follows the host's two's-complement
wrap-around"). -/
def i32_wrap (x : Int) : Int :=
  (x + 2 ^ 31) % 2 ^ 32 - 2 ^ 31

/-- Modelled from the spec: the scalar math capability's `i32` addition. -/
def i32_add (a b : Int) : Int :=
  i32_wrap (a + b)

/-- Modelled from the spec: the scalar math capability's `i32`
multiplication. -/
def i32_mul (a b : Int) : Int :=
  i32_wrap (a * b)

/-! ### The NEON lane-by-lane escape hatch (`danger/impl_neon.rs`).

The integer `div` implementations (every width) and the `i64`/`u64` `mul`
implementations transmute both registers to fixed-size stack arrays, run the
scalar math op through `zip(..).enumerate()` writing into a zero-initialized
array, and transmute back.  A register of `n` lanes over `β` is modelled as
`Fin n → β`; the scalar math capability op is the parameter `f`. -/

/-- The scalar lane loop shared by the NEON integer `div` ops (`i8`: 16
lanes, `i16`/`u16`: 8, `i32`/`u32`: 4, `i64`/`u64`: 2) and the `i64`/`u64`
`mul` ops:
`for (idx, (l1, l2)) in zip(l1_unpacked, l2_unpacked).enumerate() {
result[idx] = AutoMath::op(l1, l2) }` over `let mut result = [0; n]`. -/
def neonLaneLoop {β : Type} (f : β → β → β) (z : β) (n : Nat)
    (l1 l2 : Fin n → β) : List β :=
  (((List.ofFn l1).zip (List.ofFn l2)).enum).foldl
    (fun res p => res.set p.1 (f p.2.1 p.2.2)) (List.replicate n z)

/-! ### Proofs about the max kernels. -/

theorem supRange_split (arr : List α) (i m n : Nat) :
    supRange arr i (m + n) = max (supRange arr i m) (supRange arr (i + m) n) := by
  induction n with
  | zero => simp [supRange, max_bot_right]
  | succ n ih =>
      have : i + (m + n) = i + m + n := by omega
      simp [supRange, ih, max_assoc, this]

theorem supRange_one (arr : List α) (i : Nat) :
    supRange arr i 1 = arr.getD i ⊥ := by
  simp [supRange, max_bot_left]

theorem supRange_split_zero (arr : List α) (m n : Nat) :
    supRange arr 0 (m + n) = max (supRange arr 0 m) (supRange arr m n) := by
  have h := supRange_split arr 0 m n
  rwa [Nat.zero_add] at h

theorem scalarTailLoop_eq (arr : List α) :
    ∀ (n i : Nat) (m : α), scalarTailLoop arr i n m = max m (supRange arr i n) := by
  intro n
  induction n with
  | zero => intro i m; simp [scalarTailLoop, supRange, max_bot_right]
  | succ n ih =>
      intro i m
      have hsplit : supRange arr i (n + 1) = max (arr.getD i ⊥) (supRange arr (i + 1) n) := by
        have h1 : n + 1 = 1 + n := by omega
        rw [h1, supRange_split, supRange_one]
      rw [scalarTailLoop, ih, hsplit, max_assoc]

set_option maxHeartbeats 2000000 in
theorem foldLanes_maxBlockStep (arr : List α) (i : Nat) (acc : Nat → α) (m0 : α) :
    foldLanes (maxBlockStep arr i acc) m0 = max (foldLanes acc m0) (supRange arr i 64) := by
  simp only [foldLanes, mergedLane, maxBlockStep, supRange, Nat.reduceAdd, Nat.add_zero,
    max_bot_left, max_bot_right]
  ac_rfl

set_option maxHeartbeats 1000000 in
theorem foldLanes_regTailStep (arr : List α) (i : Nat) (acc : Nat → α) (m0 : α) :
    foldLanes (regTailStep arr i acc) m0 = max (foldLanes acc m0) (supRange arr i 8) := by
  simp only [foldLanes, mergedLane, regTailStep, supRange, Nat.reduceAdd, Nat.add_zero,
    Nat.reduceLT, reduceIte, max_bot_left, max_bot_right]
  ac_rfl

theorem foldLanes_bot (m0 : α) : foldLanes (fun _ => (⊥ : α)) m0 = m0 := by
  simp [foldLanes, mergedLane, max_bot_left, max_bot_right]

theorem foldLanes_maxBlocksLoop (arr : List α) :
    ∀ (n i : Nat) (acc : Nat → α) (m0 : α),
      foldLanes (maxBlocksLoop arr i n acc) m0 =
        max (foldLanes acc m0) (supRange arr i (64 * n)) := by
  intro n
  induction n with
  | zero => intro i acc m0; simp [maxBlocksLoop, supRange, max_bot_right]
  | succ n ih =>
      intro i acc m0
      rw [maxBlocksLoop, ih, foldLanes_maxBlockStep]
      have h1 : 64 * (n + 1) = 64 + 64 * n := by omega
      rw [h1, supRange_split, ← max_assoc]

theorem foldLanes_regTailLoop (arr : List α) :
    ∀ (n i : Nat) (acc : Nat → α) (m0 : α),
      foldLanes (regTailLoop arr i n acc) m0 =
        max (foldLanes acc m0) (supRange arr i (8 * n)) := by
  intro n
  induction n with
  | zero => intro i acc m0; simp [regTailLoop, supRange, max_bot_right]
  | succ n ih =>
      intro i acc m0
      rw [regTailLoop, ih, foldLanes_regTailStep]
      have h1 : 8 * (n + 1) = 8 + 8 * n := by omega
      rw [h1, supRange_split, ← max_assoc]

theorem foldl_max_eq (l : List α) : ∀ b : α, l.foldl max b = max b (l.foldl max ⊥) := by
  induction l with
  | nil => intro b; simp [max_bot_right]
  | cons a l ih =>
      intro b
      simp only [List.foldl_cons]
      rw [ih (max b a), ih (max ⊥ a), max_bot_left, max_assoc]

theorem supRange_eq_foldl (arr : List α) :
    ∀ (n i : Nat), i + n ≤ arr.length →
      supRange arr i n = ((arr.drop i).take n).foldl max ⊥ := by
  intro n
  induction n with
  | zero => intro i _; simp [supRange]
  | succ n ih =>
      intro i hle
      have hi : i < arr.length := by omega
      have hdrop : arr.drop i = arr.get ⟨i, hi⟩ :: arr.drop (i + 1) := by
        rw [List.drop_eq_getElem_cons hi]
        rfl
      have hsplit : supRange arr i (n + 1) = max (arr.getD i ⊥) (supRange arr (i + 1) n) := by
        have h1 : n + 1 = 1 + n := by omega
        rw [h1, supRange_split, supRange_one]
      rw [hsplit, ih (i + 1) (by omega), hdrop]
      simp only [List.take_succ_cons, List.foldl_cons]
      rw [foldl_max_eq ((arr.drop (i + 1)).take n) (max ⊥ _), max_bot_left]
      rw [List.getD_eq_getElem?_getD, List.getElem?_eq_getElem hi]
      rfl

theorem supRange_length (arr : List α) : supRange arr 0 arr.length = scalarFoldMax arr := by
  rw [supRange_eq_foldl arr arr.length 0 (by omega)]
  simp [scalarFoldMax]

theorem fbTotal_fbBlockStep (arr : List α) (i : Nat) (acc : Nat → α) :
    fbReduce (fbBlockStep arr i acc) (fbBlockStep arr i acc 0) =
      max (fbReduce acc (acc 0)) (supRange arr i 8) := by
  simp only [fbReduce, fbBlockStep, supRange, Nat.reduceAdd, Nat.add_zero,
    max_bot_left, max_bot_right]
  ac_rfl

theorem fbTotal_fbBlocksLoop (arr : List α) :
    ∀ (n i : Nat) (acc : Nat → α),
      fbReduce (fbBlocksLoop arr i n acc) (fbBlocksLoop arr i n acc 0) =
        max (fbReduce acc (acc 0)) (supRange arr i (8 * n)) := by
  intro n
  induction n with
  | zero => intro i acc; simp [fbBlocksLoop, supRange, max_bot_right]
  | succ n ih =>
      intro i acc
      rw [fbBlocksLoop, ih, fbTotal_fbBlockStep]
      have h1 : 8 * (n + 1) = 8 + 8 * n := by omega
      rw [h1, supRange_split, ← max_assoc]

omit [OrderBot α] in
theorem fbReduce_max_right (acc : Nat → α) (a0 s : α) :
    fbReduce acc (max a0 s) = max (fbReduce acc a0) s := by
  simp only [fbReduce]
  ac_rfl

theorem xconst_max_horizontal_eq (arr : List α) (DIMS : Nat)
    (h1 : arr.length = DIMS) (h2 : DIMS % 64 = 0) :
    f32_xconst_avx2_nofma_max_horizontal DIMS arr = scalarFoldMax arr := by
  unfold f32_xconst_avx2_nofma_max_horizontal
  rw [foldLanes_maxBlocksLoop, foldLanes_bot, max_bot_left]
  have h3 : 64 * (DIMS / 64) = DIMS := by omega
  rw [h3, ← h1, supRange_length]

theorem xany_max_horizontal_eq (arr : List α) :
    f32_xany_avx2_nofma_max_horizontal arr = scalarFoldMax arr := by
  unfold f32_xany_avx2_nofma_max_horizontal
  by_cases h : arr.length % 64 = 0
  · simp only [h, if_true, Nat.sub_zero, if_pos]
    rw [foldLanes_maxBlocksLoop, foldLanes_bot, max_bot_left]
    have h3 : 64 * (arr.length / 64) = arr.length := by omega
    rw [h3, supRange_length]
  · simp only [h, if_false, if_neg]
    rw [foldLanes_regTailLoop, foldLanes_maxBlocksLoop, foldLanes_bot,
      scalarTailLoop_eq, max_bot_left]
    have hoff : arr.length % 64 ≤ arr.length := Nat.mod_le _ _
    have htail : arr.length % 64 % 8 ≤ arr.length % 64 := Nat.mod_le _ _
    have hd : 64 * ((arr.length - arr.length % 64) / 64) = arr.length - arr.length % 64 := by
      omega
    have hr : 8 * ((arr.length % 64 - arr.length % 64 % 8) / 8) =
        arr.length % 64 - arr.length % 64 % 8 := by
      omega
    rw [hd, hr]
    have hrearrange :
        max (max (supRange arr (arr.length - arr.length % 64 % 8) (arr.length % 64 % 8))
              (supRange arr 0 (arr.length - arr.length % 64)))
          (supRange arr (arr.length - arr.length % 64)
            (arr.length % 64 - arr.length % 64 % 8)) =
        max (max (supRange arr 0 (arr.length - arr.length % 64))
              (supRange arr (arr.length - arr.length % 64)
                (arr.length % 64 - arr.length % 64 % 8)))
          (supRange arr (arr.length - arr.length % 64 % 8) (arr.length % 64 % 8)) := by
      ac_rfl
    rw [hrearrange, ← supRange_split_zero]
    have h0 : arr.length - arr.length % 64 + (arr.length % 64 - arr.length % 64 % 8) =
        arr.length - arr.length % 64 % 8 := by omega
    rw [h0, ← supRange_split_zero]
    have h4 : arr.length - arr.length % 64 % 8 + arr.length % 64 % 8 = arr.length := by omega
    rw [h4, supRange_length]

theorem fallback_max_horizontal_eq (arr : List α) :
    f32_xany_fallback_nofma_max_horizontal arr = scalarFoldMax arr := by
  show fbReduce (fbBlocksLoop arr 0 (arr.length / 8) (fun _ => (⊥ : α)))
      (scalarTailLoop arr (8 * (arr.length / 8)) (arr.length % 8)
        (fbBlocksLoop arr 0 (arr.length / 8) (fun _ => (⊥ : α)) 0)) = scalarFoldMax arr
  rw [scalarTailLoop_eq, fbReduce_max_right, fbTotal_fbBlocksLoop]
  have hinit : fbReduce (fun _ => (⊥ : α)) ((fun _ => (⊥ : α)) 0) = ⊥ := by
    simp [fbReduce, max_bot_right]
  rw [hinit, max_bot_left, ← supRange_split_zero]
  have h1 : 8 * (arr.length / 8) + arr.length % 8 = arr.length := by omega
  rw [h1, supRange_length]

/-! ### Bookkeeping for the vertical kernels: where each output position is
written and which value it receives. -/

theorem getD_set_self {β : Type} (l : List β) (m : Nat) (a d : β) (h : m < l.length) :
    (l.set m a).getD m d = a := by
  rw [List.getD_eq_getElem?_getD, List.getElem?_set_self h]
  rfl

theorem getD_set_ne {β : Type} (l : List β) (m k : Nat) (a d : β) (h : m ≠ k) :
    (l.set m a).getD k d = l.getD k d := by
  rw [List.getD_eq_getElem?_getD, List.getElem?_set_ne h, ← List.getD_eq_getElem?_getD]

theorem writeSlots_length {β : Type} (res : List β) (i : Nat) (acc : Nat → β) :
    ∀ c, (writeSlots res i acc c).length = res.length := by
  intro c
  induction c with
  | zero => rfl
  | succ c ih => rw [writeSlots, List.length_set, ih]

theorem writeSlots_getD_out {β : Type} (res : List β) (i : Nat) (acc : Nat → β) (d : β) :
    ∀ c j, j < i ∨ i + c ≤ j → (writeSlots res i acc c).getD j d = res.getD j d := by
  intro c
  induction c with
  | zero => intro j _; rfl
  | succ c ih =>
      intro j hj
      rw [writeSlots, getD_set_ne _ _ _ _ _ (by omega), ih j (by omega)]

theorem writeSlots_getD_in {β : Type} (res : List β) (i : Nat) (acc : Nat → β) (d : β) :
    ∀ c s, s < c → i + c ≤ res.length → (writeSlots res i acc c).getD (i + s) d = acc s := by
  intro c
  induction c with
  | zero => intro s hs _; omega
  | succ c ih =>
      intro s hs hlen
      rw [writeSlots]
      by_cases hsc : s = c
      · subst hsc
        exact getD_set_self _ _ _ _ (by rw [writeSlots_length]; omega)
      · rw [getD_set_ne _ _ _ _ _ (by omega), ih s (by omega) (by omega)]

theorem vertBlocksLoop_length {β : Type} (blockAcc : Nat → Nat → β) :
    ∀ nb i res, (vertBlocksLoop blockAcc i nb res).length = res.length := by
  intro nb
  induction nb with
  | zero => intro i res; rfl
  | succ nb ih => intro i res; rw [vertBlocksLoop, ih, writeSlots_length]

theorem vertBlocksLoop_getD_out {β : Type} (blockAcc : Nat → Nat → β) (d : β) :
    ∀ nb i res j, j < i ∨ i + 64 * nb ≤ j →
      (vertBlocksLoop blockAcc i nb res).getD j d = res.getD j d := by
  intro nb
  induction nb with
  | zero => intro i res j _; rfl
  | succ nb ih =>
      intro i res j hj
      rw [vertBlocksLoop, ih _ _ j (by omega), writeSlots_getD_out _ _ _ _ _ j (by omega)]

theorem vertBlocksLoop_getD_in {β : Type} (blockAcc : Nat → Nat → β) (d : β) :
    ∀ nb i res t s, t < nb → s < 64 → i + 64 * nb ≤ res.length →
      (vertBlocksLoop blockAcc i nb res).getD (i + 64 * t + s) d = blockAcc (i + 64 * t) s := by
  intro nb
  induction nb with
  | zero => intro i res t s ht _ _; omega
  | succ nb ih =>
      intro i res t s ht hs hlen
      rw [vertBlocksLoop]
      match t with
      | 0 =>
          have hout : (i + 64 * 0 + s) < i + 64 := by omega
          rw [vertBlocksLoop_getD_out _ _ _ _ _ _ (Or.inl hout)]
          have h0 : i + 64 * 0 + s = i + s := by omega
          rw [h0, writeSlots_getD_in _ _ _ _ _ s hs (by omega)]
          have h1 : i + 64 * 0 = i := by omega
          rw [h1]
      | t + 1 =>
          have h0 : i + 64 * (t + 1) + s = i + 64 + 64 * t + s := by omega
          have h1 : i + 64 * (t + 1) = i + 64 + 64 * t := by omega
          rw [h0, h1, ih (i + 64) _ t s (by omega) hs (by rw [writeSlots_length]; omega)]

theorem vertTailLoop_length {β : Type} (tailAcc : Nat → Nat → Nat → β) (len : Nat) :
    ∀ it i res, (vertTailLoop tailAcc len i it res).length = res.length := by
  intro it
  induction it with
  | zero => intro i res; rfl
  | succ it ih => intro i res; rw [vertTailLoop, ih, writeSlots_length]

theorem vertTailLoop_getD_out {β : Type} (tailAcc : Nat → Nat → Nat → β) (len : Nat)
    (d : β) :
    ∀ it i res j, j < i → (vertTailLoop tailAcc len i it res).getD j d = res.getD j d := by
  intro it
  induction it with
  | zero => intro i res j _; rfl
  | succ it ih =>
      intro i res j hj
      rw [vertTailLoop, ih _ _ j (by omega), writeSlots_getD_out _ _ _ _ _ j (by omega)]

theorem sumVertRowsLoop_slot {β : Type} (add : β → β → β) (z : β) (i : Nat) :
    ∀ (ms : List (List β)) (acc : Nat → β) (s : Nat),
      sumVertRowsLoop add z i ms acc s =
        ms.foldl (fun a r => add a (r.getD (i + s) z)) (acc s) := by
  intro ms
  induction ms with
  | nil => intro acc s; rfl
  | cons r rs ih =>
      intro acc s
      rw [sumVertRowsLoop, ih, List.foldl_cons]
      rfl

theorem sumVertTailRows_slot {β : Type} (add : β → β → β) (z : β) (i n : Nat) :
    ∀ (ms : List (List β)) (acc : Nat → β) (s : Nat), s < 8 → s < n →
      sumVertTailRows add z i n ms acc s =
        ms.foldl (fun a r => add a (r.getD (i + s) z)) (acc s) := by
  intro ms
  induction ms with
  | nil => intro acc s _ _; rfl
  | cons r rs ih =>
      intro acc s hs hn
      rw [sumVertTailRows, ih _ s hs hn, List.foldl_cons]
      have hstep : sumTailStep add z r i n acc s =
          add (acc s) (r.getD (i + s) z) := by
        simp [sumTailStep, load_one_variable_size_avx512_pd, hs, hn]
      rw [hstep]

theorem sumVertTail_getD {β : Type} (add : β → β → β) (z : β)
    (matrix : List (List β)) (len : Nat) (d : β) :
    ∀ it i res, len ≤ res.length → len - i ≤ 8 * it →
      ∀ j, i ≤ j → j < len →
        (vertTailLoop (fun p n => sumVertTailRows add z p n matrix (fun _ => z)) len i it
            res).getD j d = colFold add z matrix j := by
  intro it
  induction it with
  | zero => intro i res _ hit j hij hj; omega
  | succ it ih =>
      intro i res hlen hit j hij hj
      rw [vertTailLoop]
      by_cases hj8 : i + 8 ≤ j
      · exact ih (i + 8) _ (by rw [writeSlots_length]; omega) (by omega) j hj8 hj
      · rw [vertTailLoop_getD_out _ _ _ _ _ _ j (by omega)]
        have hjeq : j = i + (j - i) := by omega
        rw [hjeq, writeSlots_getD_in _ _ _ _ _ (j - i) (by omega) (by omega)]
        rw [sumVertTailRows_slot _ _ _ _ _ _ (j - i) (by omega) (by omega)]
        have h0 : i + (j - i) = j := by omega
        rw [h0, colFold]

theorem sumVertRowsLoop_colFold {β : Type} (add : β → β → β) (z : β) (i : Nat)
    (ms : List (List β)) (s : Nat) :
    sumVertRowsLoop add z i ms (fun _ => z) s = colFold add z ms (i + s) := by
  rw [sumVertRowsLoop_slot, colFold]

theorem xconst_sum_vertical_spec {β : Type} (add : β → β → β) (z : β)
    (matrix : List (List β)) (DIMS : Nat) (d : β) (hD : DIMS % 64 = 0) :
    (f64_xconst_avx512_nofma_sum_vertical add z DIMS matrix).length = DIMS ∧
      ∀ j < DIMS, (f64_xconst_avx512_nofma_sum_vertical add z DIMS matrix).getD j d =
        colFold add z matrix j := by
  constructor
  · rw [f64_xconst_avx512_nofma_sum_vertical, vertBlocksLoop_length, List.length_replicate]
  · intro j hj
    rw [f64_xconst_avx512_nofma_sum_vertical]
    have hj64 : j = 0 + 64 * (j / 64) + j % 64 := by omega
    rw [hj64, vertBlocksLoop_getD_in _ _ _ _ _ (j / 64) (j % 64) (by omega) (by omega)
      (by rw [List.length_replicate]; omega), sumVertRowsLoop_colFold]

theorem xany_sum_vertical_spec {β : Type} (add : β → β → β) (z : β)
    (r0 : List β) (rs : List (List β)) (d : β) (R : List β)
    (h : f64_xany_avx512_nofma_sum_vertical add z (r0 :: rs) = some R) :
    R.length = r0.length ∧
      ∀ j < r0.length, R.getD j d = colFold add z (r0 :: rs) j := by
  simp only [f64_xany_avx512_nofma_sum_vertical, Option.some.injEq] at h
  subst h
  constructor
  · rw [vertTailLoop_length, vertBlocksLoop_length, List.length_replicate]
  · intro j hj
    by_cases hcase : j < r0.length - r0.length % 64
    · rw [vertTailLoop_getD_out _ _ _ _ _ _ j hcase]
      have hj64 : j = 0 + 64 * (j / 64) + j % 64 := by omega
      rw [hj64, vertBlocksLoop_getD_in _ _ _ _ _ (j / 64) (j % 64) (by omega) (by omega)
        (by rw [List.length_replicate]; omega), sumVertRowsLoop_colFold]
    · exact sumVertTail_getD add z (r0 :: rs) r0.length d _ _ _
        (by rw [vertBlocksLoop_length, List.length_replicate]) (by omega) j (by omega) hj

theorem eq_replicate_of_getD {β : Type} (l : List β) (n : Nat) (c d : β)
    (hlen : l.length = n) (h : ∀ j < n, l.getD j d = c) : l = List.replicate n c := by
  subst hlen
  apply List.eq_replicate_of_mem
  intro b hb
  obtain ⟨j, hjlt, hjb⟩ := List.mem_iff_getElem.mp hb
  have hc := h j hjlt
  rw [List.getD_eq_getElem?_getD, List.getElem?_eq_getElem hjlt] at hc
  rw [← hjb]
  exact hc

/-! ### Supporting facts for the remaining claims. -/

theorem xconst_max_vertical_empty_spec (DIMS : Nat) (z0 : α) (hD : DIMS % 64 = 0) :
    f32_xconst_avx2_nofma_max_vertical DIMS z0 [] = List.replicate DIMS (⊥ : α) := by
  apply eq_replicate_of_getD _ _ _ (⊥ : α)
  · rw [f32_xconst_avx2_nofma_max_vertical, vertBlocksLoop_length, List.length_replicate]
  · intro j hj
    rw [f32_xconst_avx2_nofma_max_vertical]
    have hj64 : j = 0 + 64 * (j / 64) + j % 64 := by omega
    rw [hj64, vertBlocksLoop_getD_in _ _ _ _ _ (j / 64) (j % 64) (by omega) (by omega)
      (by rw [List.length_replicate]; omega)]
    rfl

theorem xconst_sum_vertical_empty_spec {β : Type} (add : β → β → β) (z : β)
    (DIMS : Nat) (hD : DIMS % 64 = 0) :
    f64_xconst_avx512_nofma_sum_vertical add z DIMS [] = List.replicate DIMS z := by
  obtain ⟨hlen, hval⟩ := xconst_sum_vertical_spec add z [] DIMS z hD
  exact eq_replicate_of_getD _ _ _ z hlen (fun j hj => hval j hj)

theorem Fp.fmax_comm (x y : Fp) : Fp.fmax x y = Fp.fmax y x := by
  cases x <;> cases y <;> simp [Fp.fmax, max_comm]

theorem i32_add_zero (x : Int) (h : -(2 ^ 31) ≤ x ∧ x < 2 ^ 31) : i32_add x 0 = x := by
  unfold i32_add i32_wrap
  omega

theorem i32_mul_one (x : Int) (h : -(2 ^ 31) ≤ x ∧ x < 2 ^ 31) : i32_mul x 1 = x := by
  unfold i32_mul i32_wrap
  rw [Int.mul_one]
  omega

theorem foldl_set_enumFrom {β γ : Type} (g : γ → β) :
    ∀ (xs : List γ) (i : Nat) (res : List β), res.length = i + xs.length →
      (List.enumFrom i xs).foldl (fun r p => r.set p.1 (g p.2)) res =
        res.take i ++ xs.map g := by
  intro xs
  induction xs with
  | nil =>
      intro i res hlen
      rw [List.length_nil] at hlen
      simp only [List.enumFrom, List.foldl_nil, List.map_nil, List.append_nil]
      rw [show i = res.length by omega, List.take_length]
  | cons x xs ih =>
      intro i res hlen
      rw [List.length_cons] at hlen
      rw [List.enumFrom_cons, List.foldl_cons]
      rw [ih (i + 1) (res.set i (g x)) (by rw [List.length_set]; omega)]
      have hset : res.set i (g x) = res.take i ++ g x :: res.drop (i + 1) := by
        rw [List.set_eq_take_append_cons_drop, if_pos (by omega)]
      rw [hset, List.take_append_eq_append_take]
      have htakelen : (res.take i).length = i := by
        rw [List.length_take]
        omega
      rw [List.take_of_length_le (by omega), htakelen]
      simp

theorem zip_ofFn {β γ : Type} :
    ∀ (n : Nat) (l1 : Fin n → β) (l2 : Fin n → γ),
      (List.ofFn l1).zip (List.ofFn l2) = List.ofFn (fun k => (l1 k, l2 k)) := by
  intro n
  induction n with
  | zero => intro l1 l2; rfl
  | succ n ih =>
      intro l1 l2
      rw [List.ofFn_succ, List.ofFn_succ, List.zip_cons_cons, ih, List.ofFn_succ]

theorem neonLaneLoop_eq {β : Type} (f : β → β → β) (z : β) (n : Nat) (l1 l2 : Fin n → β) :
    neonLaneLoop f z n l1 l2 = List.ofFn (fun k => f (l1 k) (l2 k)) := by
  have h1 : neonLaneLoop f z n l1 l2 =
      (List.replicate n z).take 0 ++
        (List.ofFn fun k => (l1 k, l2 k)).map (fun q => f q.1 q.2) := by
    rw [neonLaneLoop, zip_ofFn]
    exact foldl_set_enumFrom (fun q => f q.1 q.2) (List.ofFn fun k => (l1 k, l2 k)) 0
      (List.replicate n z) (by rw [List.length_replicate, List.length_ofFn]; omega)
  rw [h1]
  simp only [List.take_zero, List.nil_append, List.map_ofFn]
  rfl

/-! ### The claims. -/

/-- C1: for every NaN-free f32 vector, the horizontal-max entry points — the
AVX2 const-dim kernel (under its documented precondition `DIMS % 64 = 0` and
`arr.len() = DIMS`), the AVX2 any-dim kernel for arbitrary length, and the
scalar fallback backend — return exactly the result of the straightforward
element-by-element fold computing the maximum of all elements starting from
negative infinity (`⊥`).  Stated over any linear order with a least element,
which the NaN-free f32 values form. -/
theorem claim_C1_max_horizontal_agreement (arrC arrA arrF : List α) (DIMS : Nat)
    (h1 : arrC.length = DIMS) (h2 : DIMS % 64 = 0) :
    f32_xconst_avx2_nofma_max_horizontal DIMS arrC = scalarFoldMax arrC ∧
      f32_xany_avx2_nofma_max_horizontal arrA = scalarFoldMax arrA ∧
      f32_xany_fallback_nofma_max_horizontal arrF = scalarFoldMax arrF :=
  ⟨xconst_max_horizontal_eq arrC DIMS h1 h2, xany_max_horizontal_eq arrA,
    fallback_max_horizontal_eq arrF⟩

/-- Witness for C1: concrete vectors of lengths 64 (const-dim, one dense
block), 77 (any-dim, exercising dense block, register tail and scalar tail)
and 13 (fallback, one block plus tail), over `ℕ` with `⊥ = 0` standing for
`NEG_INFINITY`. -/
theorem claim_C1_max_horizontal_agreement_witness :
    (List.map (fun n => n % 7) (List.range 64)).length = 64 ∧ 64 % 64 = 0 ∧
      (f32_xconst_avx2_nofma_max_horizontal 64 (List.map (fun n => n % 7) (List.range 64)) =
          scalarFoldMax (List.map (fun n => n % 7) (List.range 64)) ∧
        f32_xany_avx2_nofma_max_horizontal (List.map (fun n => n % 5) (List.range 77)) =
          scalarFoldMax (List.map (fun n => n % 5) (List.range 77)) ∧
        f32_xany_fallback_nofma_max_horizontal (List.map (fun n => n % 3) (List.range 13)) =
          scalarFoldMax (List.map (fun n => n % 3) (List.range 13))) :=
  ⟨by decide, by decide,
    claim_C1_max_horizontal_agreement _ _ _ 64 (by decide) (by decide)⟩

/-- C2: for every non-empty matrix of equal-length rows, the vertical sum
kernels — const-dim with `DIMS % 64 = 0` and any-dim for arbitrary row
length — return a vector whose length equals the row length and whose entry
at every position `j` is the fold of the scalar addition over the rows of
column `j`, in the kernel's row order starting from zero (for the IEEE `add`
this is the exact accumulation order of the kernel; for 25 copies of a row
`v` it is the 25-fold sum of `v`, elementwise `25·v` up to rounding).
Stated for an arbitrary scalar addition `add`, so it holds for the rounded
IEEE `f64` addition in particular. -/
theorem claim_C2_sum_vertical_spec {β : Type} (add : β → β → β) (z d : β)
    (c0 : List β) (cs : List (List β)) (DIMS : Nat)
    (hD : DIMS % 64 = 0) (hclen : ∀ r ∈ c0 :: cs, r.length = DIMS)
    (a0 : List β) (as : List (List β)) (halen : ∀ r ∈ a0 :: as, r.length = a0.length) :
    ((f64_xconst_avx512_nofma_sum_vertical add z DIMS (c0 :: cs)).length = DIMS ∧
        ∀ j < DIMS, (f64_xconst_avx512_nofma_sum_vertical add z DIMS (c0 :: cs)).getD j d =
          colFold add z (c0 :: cs) j) ∧
      ∀ R, f64_xany_avx512_nofma_sum_vertical add z (a0 :: as) = some R →
        R.length = a0.length ∧
          ∀ j < a0.length, R.getD j d = colFold add z (a0 :: as) j :=
  ⟨xconst_sum_vertical_spec add z (c0 :: cs) DIMS d hD,
    fun R h => xany_sum_vertical_spec add z a0 as d R h⟩

/-- Witness for C2: the const-dim kernel over three rows of length 64 and
the any-dim kernel over two rows of length 9 (exercising the masked tail),
over `ℕ`. -/
theorem claim_C2_sum_vertical_spec_witness :
    64 % 64 = 0 ∧
      (∀ r ∈ [List.replicate 64 (1 : ℕ), List.replicate 64 2, List.replicate 64 3],
        r.length = 64) ∧
      (∀ r ∈ [List.replicate 9 (4 : ℕ), List.replicate 9 5],
        r.length = (List.replicate 9 (4 : ℕ)).length) ∧
      (((f64_xconst_avx512_nofma_sum_vertical Nat.add 0 64
            (List.replicate 64 1 :: [List.replicate 64 2, List.replicate 64 3])).length = 64 ∧
          ∀ j < 64, (f64_xconst_avx512_nofma_sum_vertical Nat.add 0 64
              (List.replicate 64 1 :: [List.replicate 64 2, List.replicate 64 3])).getD j 0 =
            colFold Nat.add 0 (List.replicate 64 1 :: [List.replicate 64 2, List.replicate 64 3]) j) ∧
        ∀ R, f64_xany_avx512_nofma_sum_vertical Nat.add 0
            (List.replicate 9 4 :: [List.replicate 9 5]) = some R →
          R.length = (List.replicate 9 (4 : ℕ)).length ∧
            ∀ j < (List.replicate 9 (4 : ℕ)).length, R.getD j 0 =
              colFold Nat.add 0 (List.replicate 9 4 :: [List.replicate 9 5]) j) :=
  ⟨by decide, by decide, by decide,
    claim_C2_sum_vertical_spec Nat.add 0 0 (List.replicate 64 1)
      [List.replicate 64 2, List.replicate 64 3] 64 (by decide) (by decide)
      (List.replicate 9 4) [List.replicate 9 5] (by decide)⟩

/-- C3: every exported vector-by-vector and two-vector vertical entry point
(any-dim and const-dim forms, kernels and element types arbitrary) halts
with an assertion failure exactly when `a.len() ≠ b.len()` or
`a.len() ≠ result.len()`; when it halts no element of `result` has been
written (the checks precede backend dispatch), and when the lengths agree no
shape error is raised. -/
theorem claim_C3_binary_shape_checks {β : Type} (kernA : List β → List β → List β)
    (kernC : Nat → List β → List β → List β) (DIMS : Nat) (a b result : List β) :
    ((exportSafeBinaryOp kernA a b result).2 = true ↔
        a.length ≠ b.length ∨ a.length ≠ result.length) ∧
      ((exportSafeBinaryOp kernA a b result).2 = true →
        (exportSafeBinaryOp kernA a b result).1 = result) ∧
      ((exportSafeBinaryOpConst kernC DIMS a b result).2 = true ↔
        a.length ≠ b.length ∨ a.length ≠ result.length) ∧
      ((exportSafeBinaryOpConst kernC DIMS a b result).2 = true →
        (exportSafeBinaryOpConst kernC DIMS a b result).1 = result) := by
  unfold exportSafeBinaryOp exportSafeBinaryOpConst
  by_cases h1 : a.length = b.length
  · by_cases h2 : a.length = result.length
    · have h2b : b.length = result.length := by omega
      rw [if_pos h1, if_pos h2, if_pos h1, if_pos h2]
      simp [h1, h2b]
    · have h2b : ¬b.length = result.length := by omega
      rw [if_pos h1, if_neg h2, if_pos h1, if_neg h2]
      simp [h1, h2b]
  · rw [if_neg h1, if_neg h1]
    simp [h1]

/-- C4 counterexample: calling the const-dim horizontal-max export with
`DIMS = 64` and a 65-element vector — a shape-contract violation per the
claim — raises no contract-violation signal at all; likewise the const-dim
vector × value export with matching `a`/`result` lengths of 65 never
compares them against `DIMS = 64` and dispatches without a signal.  This
falsifies "a disagreement between DIMS and the actual input length is
surfaced immediately as a fatal contract violation ... detected on every
call". -/
theorem claim_C4_counterexample :
    (List.replicate 65 (0 : ℕ)).length ≠ 64 ∧
      (exportSafeHorizontalOpConst (f32_xconst_avx2_nofma_max_horizontal (α := ℕ)) 64
          (List.replicate 65 0)).2 = false ∧
      (exportSafeVectorXValueOpConst (fun _ v a => op_vector_x_value Nat.add v a) 64 1
          (List.replicate 65 0) (List.replicate 65 0)).2 = false :=
  ⟨by decide, rfl, rfl⟩

/-- C4 amended: the const-dim exported entry points perform no check of the
declared `DIMS` against any input length.  The const-dim horizontal
reduction export raises no contract violation on any call whatsoever, and
the const-dim vector × value export raises one exactly when
`a.len() ≠ result.len()`, independently of `DIMS`.  (The only
`arr.len() == DIMS` comparison in the code is a `debug_assert_eq!` inside
the unsafe kernels, which is compiled out of release builds and sits after
kernel entry in debug builds.) -/
theorem claim_C4_no_const_dims_check {β γ : Type} (kernH : Nat → List β → γ)
    (kernV : Nat → β → List β → List β) (DIMS : Nat) (v : β) (a result : List β) :
    (exportSafeHorizontalOpConst kernH DIMS a).2 = false ∧
      ((exportSafeVectorXValueOpConst kernV DIMS v a result).2 = true ↔
        a.length ≠ result.length) := by
  refine ⟨rfl, ?_⟩
  unfold exportSafeVectorXValueOpConst
  by_cases h : a.length = result.length <;> simp [h]

/-- C5: when the input length is a multiple of the 64-element block, the
const-dim and any-dim kernels of the same backend produce identical
results — the any-dim tail phases are skipped and the dense loops coincide.
Shown for the f32 AVX2 horizontal max and the f64 AVX-512 horizontal sum
(the latter over an arbitrary scalar addition, hence for the rounded IEEE
operation in particular, and identical computations give bit-identical
floats). -/
theorem claim_C5_const_any_parity {β : Type} (add : β → β → β) (z : β)
    (arrM : List α) (arrS : List β)
    (hM : arrM.length % 64 = 0) (hS : arrS.length % 64 = 0) :
    f32_xany_avx2_nofma_max_horizontal arrM =
        f32_xconst_avx2_nofma_max_horizontal arrM.length arrM ∧
      f64_xany_avx512_nofma_sum_horizontal add z arrS =
        f64_xconst_avx512_nofma_sum_horizontal add z arrS.length arrS := by
  constructor
  · rw [f32_xany_avx2_nofma_max_horizontal, f32_xconst_avx2_nofma_max_horizontal]
    simp only [hM, Nat.sub_zero, reduceIte]
  · rw [f64_xany_avx512_nofma_sum_horizontal, f64_xconst_avx512_nofma_sum_horizontal]
    simp only [hS, Nat.sub_zero, Nat.reduceAdd, Nat.reduceDiv]
    rfl

set_option maxRecDepth 40000 in
/-- Witness for C5: a 128-element vector for the max pair and a 64-element
vector for the sum pair, over `ℕ`. -/
theorem claim_C5_const_any_parity_witness :
    (List.map (fun n => n % 11) (List.range 128)).length % 64 = 0 ∧
      (List.map (fun n => n + 2) (List.range 64)).length % 64 = 0 ∧
      (f32_xany_avx2_nofma_max_horizontal (List.map (fun n => n % 11) (List.range 128)) =
          f32_xconst_avx2_nofma_max_horizontal
            (List.map (fun n => n % 11) (List.range 128)).length
            (List.map (fun n => n % 11) (List.range 128)) ∧
        f64_xany_avx512_nofma_sum_horizontal Nat.add 0
            (List.map (fun n => n + 2) (List.range 64)) =
          f64_xconst_avx512_nofma_sum_horizontal Nat.add 0
            (List.map (fun n => n + 2) (List.range 64)).length
            (List.map (fun n => n + 2) (List.range 64))) :=
  ⟨by decide, by decide,
    claim_C5_const_any_parity Nat.add 0 _ _ (by decide) (by decide)⟩

/-- C6 counterexample: on the NEON f32 backend (lanewise `vmaxq_f32`, the
AArch64 `FMAX`, which returns NaN when either operand is NaN), for the
length-1 vectors `a = [NaN]` and `b = [1.0]` both `max_vertical(a, b)` and
`max_vertical(b, a)` are `[NaN]`, and the elementwise `==` comparison of the
two results fails because `NaN == NaN` is false.  This falsifies the claim
for floating-point inputs. -/
theorem claim_C6_counterexample :
    ((op_max_vertical Fp.fmax [Fp.nan] [Fp.fin 1]).zip
        (op_max_vertical Fp.fmax [Fp.fin 1] [Fp.nan])).all
      (fun p => Fp.ieeeEq p.1 p.2) = false := by
  decide

/-- C6 amended: for every backend whose lanewise max is a commutative
function of its operands — which holds for every integer register max in the
sources (`vmaxq_s8/s16/s32`, lane-by-lane `core::cmp::max` for `i64`/`u64`,
the scalar `cmp_max` of the fallback), for NEON `FMAX` on all float inputs
including NaN, and for every float max on NaN-free inputs — the two result
vectors of `max_vertical(a, b)` and `max_vertical(b, a)` are identical
values (and likewise `min_vertical`); the elementwise floating-point `==`
comparison additionally holds whenever no NaN is present, and fails at NaN
positions since `NaN == NaN` is false. -/
theorem claim_C6_max_vertical_commutes {β : Type} (opmax : β → β → β)
    (hcomm : ∀ x y, opmax x y = opmax y x) (a b : List β) :
    op_max_vertical opmax a b = op_max_vertical opmax b a :=
  List.zipWith_comm_of_comm opmax hcomm a b

/-- Witness for C6: the NEON f32 `FMAX` lanewise op on vectors containing
NaN. -/
theorem claim_C6_max_vertical_commutes_witness :
    (∀ x y, Fp.fmax x y = Fp.fmax y x) ∧
      op_max_vertical Fp.fmax [Fp.nan, Fp.fin 2] [Fp.fin 1, Fp.nan] =
        op_max_vertical Fp.fmax [Fp.fin 1, Fp.nan] [Fp.nan, Fp.fin 2] :=
  ⟨Fp.fmax_comm,
    claim_C6_max_vertical_commutes Fp.fmax Fp.fmax_comm [Fp.nan, Fp.fin 2]
      [Fp.fin 1, Fp.nan]⟩

/-- C7 counterexample: calling `add_value` with the value `0.0` on the
vector `a = [NaN]` (with a matching-length result buffer) completes without
any shape error and writes `[NaN]`, and the elementwise `==` comparison of
the result against `a` fails because `NaN == NaN` is false.  This falsifies
the claim for floating-point vectors containing NaN. -/
theorem claim_C7_counterexample :
    (exportSafeVectorXValueOp (op_vector_x_value Fp.add) (Fp.fin 0) [Fp.nan]
        [Fp.fin 1]).2 = false ∧
      (((exportSafeVectorXValueOp (op_vector_x_value Fp.add) (Fp.fin 0) [Fp.nan]
            [Fp.fin 1]).1).zip [Fp.nan]).all (fun p => Fp.ieeeEq p.1 p.2) = false := by
  decide

/-- C7 amended: whenever the scalar op fixes every element of `a` at the
given value — which holds for `add` with `0` and `mul` with `1` on every
integer type (two's-complement wrap-around is the identity there) and
value-wise on every float including NaN (IEEE `x + 0.0` and `x · 1.0` are
exact; a NaN input yields a NaN output) — the exported vector × value entry
point completes without a shape error and writes back exactly the vector
`a`.  The elementwise `==` comparison of the claim additionally holds
whenever `a` contains no NaN, and fails at NaN positions since `NaN == NaN`
is false. -/
theorem claim_C7_value_identity {β : Type} (op : β → β → β) (v : β)
    (a result : List β) (hlen : a.length = result.length)
    (hid : ∀ x ∈ a, op x v = x) :
    exportSafeVectorXValueOp (op_vector_x_value op) v a result = (a, false) := by
  rw [exportSafeVectorXValueOp, if_pos hlen, op_vector_x_value]
  have hmap : a.map (fun x => op x v) = a := by
    have h1 : a.map (fun x => op x v) = a.map id := List.map_congr_left hid
    rw [h1, List.map_id]
  rw [hmap]

/-- Witness for C7: `Fp.add` with the value `0` on a vector containing both
NaN and a finite value (the value-level identity holds even at NaN), and
`i32_add`/`i32_mul` identities on in-range integers. -/
theorem claim_C7_value_identity_witness :
    ([Fp.nan, Fp.fin 3] : List Fp).length = ([Fp.fin 1, Fp.fin 1] : List Fp).length ∧
      (∀ x ∈ [Fp.nan, Fp.fin 3], Fp.add x (Fp.fin 0) = x) ∧
      exportSafeVectorXValueOp (op_vector_x_value Fp.add) (Fp.fin 0) [Fp.nan, Fp.fin 3]
          [Fp.fin 1, Fp.fin 1] = ([Fp.nan, Fp.fin 3], false) ∧
      (∀ x ∈ ([5, -7] : List Int), i32_add x 0 = x) ∧
      exportSafeVectorXValueOp (op_vector_x_value i32_add) 0 [5, -7] [0, 0] =
        ([5, -7], false) :=
  ⟨by decide, by decide,
    claim_C7_value_identity Fp.add (Fp.fin 0) [Fp.nan, Fp.fin 3] [Fp.fin 1, Fp.fin 1]
      (by decide) (by decide),
    by decide,
    claim_C7_value_identity i32_add 0 [5, -7] [0, 0] (by decide) (by decide)⟩

/-- C8: for the NEON backend integer register ops that fall back to scalar
lanes (`div` for every integer width, and also `mul` for `i64`/`u64`), the
`zip(..).enumerate()` loop writing into a zero-initialized stack array
computes exactly the lane-by-lane scalar map: lane `k` of the result is the
scalar math op applied to lane `k` of `l1` and lane `k` of `l2`, for every
lane count `n` (16 for `i8`, 8 for `i16`/`u16`, 4 for `i32`/`u32`, 2 for
`i64`/`u64`) and every scalar op `f`. -/
theorem claim_C8_neon_lane_by_lane {β : Type} (f : β → β → β) (z : β) (n : Nat)
    (l1 l2 : Fin n → β) :
    neonLaneLoop f z n l1 l2 = List.ofFn (fun k => f (l1 k) (l2 k)) :=
  neonLaneLoop_eq f z n l1 l2

/-- C9: on an empty input slice the any-dim horizontal kernels do not fail
and return the accumulator's initial value: the f32 AVX2 horizontal max
returns `NEG_INFINITY` (`⊥`), and the f64 AVX-512 horizontal sum returns
`0.0` — stated for any scalar addition with `z + z = z`, which IEEE `f64`
addition satisfies at `z = 0.0`. -/
theorem claim_C9_empty_input_horizontal {β : Type} (add : β → β → β) (z : β)
    (hz : add z z = z) :
    f32_xany_avx2_nofma_max_horizontal ([] : List α) = ⊥ ∧
      f64_xany_avx512_nofma_sum_horizontal add z [] = z := by
  constructor
  · rw [xany_max_horizontal_eq]
    rfl
  · rw [f64_xany_avx512_nofma_sum_horizontal]
    simp [sumBlocksLoop, sumTailLoop, sum_avx512_x8_pd, hz]

/-- Witness for C9 over `ℕ` with `⊥ = 0` and `add = Nat.add`, `z = 0`. -/
theorem claim_C9_empty_input_horizontal_witness :
    Nat.add 0 0 = 0 ∧
      (f32_xany_avx2_nofma_max_horizontal ([] : List ℕ) = ⊥ ∧
        f64_xany_avx512_nofma_sum_horizontal Nat.add 0 [] = 0) :=
  ⟨by decide, claim_C9_empty_input_horizontal Nat.add 0 (by decide)⟩

/-- C10: on a matrix with zero rows the any-dim vertical kernels fail
immediately (they index `matrix[0]` for the row length — modelled as
`none`), while the const-dim vertical kernels do not fail and return a
`DIMS`-length vector filled with the accumulator initial value:
`NEG_INFINITY` for the f32 max, `0.0` (`z`) for the f64 sum. -/
theorem claim_C10_empty_matrix_vertical {β : Type} (add : β → β → β) (z : β)
    (DIMS : Nat) (z0 : α) (hD : DIMS % 64 = 0) :
    f32_xany_avx2_nofma_max_vertical z0 ([] : List (List α)) = none ∧
      f64_xany_avx512_nofma_sum_vertical add z ([] : List (List β)) = none ∧
      f32_xconst_avx2_nofma_max_vertical DIMS z0 [] = List.replicate DIMS (⊥ : α) ∧
      f64_xconst_avx512_nofma_sum_vertical add z DIMS [] = List.replicate DIMS z :=
  ⟨rfl, rfl, xconst_max_vertical_empty_spec DIMS z0 hD,
    xconst_sum_vertical_empty_spec add z DIMS hD⟩

/-- Witness for C10 at `DIMS = 64` over `ℕ` (with the `vec![0.0; DIMS]`
fill literal `z0 = 5` to show the const-dim result is the accumulator
initial value, not the allocation fill). -/
theorem claim_C10_empty_matrix_vertical_witness :
    64 % 64 = 0 ∧
      (f32_xany_avx2_nofma_max_vertical 5 ([] : List (List ℕ)) = none ∧
        f64_xany_avx512_nofma_sum_vertical Nat.add 0 ([] : List (List ℕ)) = none ∧
        f32_xconst_avx2_nofma_max_vertical 64 5 [] = List.replicate 64 (⊥ : ℕ) ∧
        f64_xconst_avx512_nofma_sum_vertical Nat.add 0 64 [] = List.replicate 64 0) :=
  ⟨by decide, claim_C10_empty_matrix_vertical Nat.add 0 64 5 (by decide)⟩
